import Mathlib

/-!
Verification development for the sender-pattern learning engine
(`src/app/api/ai/analyze-sender-pattern/route.ts` and the learned-pattern
store `saveLearnedPattern` / `saveLearnedPatterns`).

The database rows touched by the engine (Newsletter ledger rows, Rule,
Group, GroupItem) are embedded as lists inside an explicit `DB` state;
each Prisma call site (`findUnique`, `upsert`, `create`) becomes a pure
function on that state. The mail provider and the classification oracle
are parameters of the orchestrator: the provider is the list of threads
its query returns (each with its already-fetched messages) and the oracle
is the optional matched-rule name it answers.
-/

namespace SenderPattern

/-- Characters strictly after the first occurrence of the opening angle
bracket, or `none` when the list has no opening angle bracket. -/
def afterLt : List Char → Option (List Char)
  | [] => none
  | c :: rest => if c = '<' then some rest else afterLt rest

/-- Characters strictly before the first occurrence of the closing angle
bracket (the whole list when there is none). -/
def beforeGt : List Char → List Char
  | [] => []
  | c :: rest => if c = '>' then [] else c :: beforeGt rest

/-- Modelled from the spec: `extractEmailAddress` (`@/utils/email`, not part
of the source sample) normalizes a sender header to a bare address by
stripping a display name and angle brackets — `"Jane Doe <jane@example.com>"`
becomes `"jane@example.com"`; a string without angle brackets is returned
unchanged. -/
def extractEmailAddress (s : String) : String :=
  match afterLt s.data with
  | some rest => String.mk (beforeGt rest)
  | none => s

/-- A message as returned by `getThreadMessages`: only the `from` header and
subject matter to the engine. -/
structure Message where
  headersFrom : String
  subject : String
deriving DecidableEq, Repr

/-- A thread handle together with its fetched messages. -/
structure Thread where
  id : String
  messages : List Message
deriving DecidableEq, Repr

/-- Element of the list built by `getThreadsFromSender`. -/
structure ThreadWithMessages where
  threadId : String
  messages : List Message
deriving DecidableEq, Repr

/-- The `GroupItemType` enum; the engine only writes `FROM` criteria. -/
inductive GroupItemType where
  | FROM
  | SUBJECT
deriving DecidableEq, Repr

/-- A Newsletter row: the Sender Check ledger, keyed by
(email, emailAccountId). Timestamps are abstracted as naturals. -/
structure Newsletter where
  email : String
  emailAccountId : String
  patternAnalyzed : Bool
  lastAnalyzedAt : Option Nat
deriving DecidableEq, Repr

/-- A Rule row: named per account, optionally linked to a group. -/
structure Rule where
  id : Nat
  name : String
  emailAccountId : String
  groupId : Option Nat
  enabled : Bool
  instructions : Option String
deriving DecidableEq, Repr

/-- A Group row (the Grouping Container). `ruleId` records the rule the
group was connected to on creation. -/
structure Group where
  id : Nat
  emailAccountId : String
  name : String
  ruleId : Nat
deriving DecidableEq, Repr

/-- A GroupItem row (the Grouping Criterion), keyed by
(groupId, type, value), carrying the exclude flag. -/
structure GroupItem where
  groupId : Nat
  type : GroupItemType
  value : String
  exclude : Bool
deriving DecidableEq, Repr

/-- The persistent store: the four tables plus a fresh-id counter for
`group.create`. -/
structure DB where
  newsletters : List Newsletter
  rules : List Rule
  groups : List Group
  groupItems : List GroupItem
  nextId : Nat
deriving DecidableEq, Repr

/-- `THRESHOLD_EMAILS` from the route: minimum messages for analysis. -/
def THRESHOLD_EMAILS : Nat := 3

/-- `MAX_RESULTS` from the route: cap on fetched threads. -/
def MAX_RESULTS : Nat := 10

/-- `prisma.newsletter.findUnique` on key `email_emailAccountId`. -/
def findNewsletter (db : DB) (email emailAccountId : String) : Option Newsletter :=
  db.newsletters.find? (fun n => n.email == email && n.emailAccountId == emailAccountId)

/-- `prisma.rule.findUnique` on key `name_emailAccountId`. -/
def findRule (db : DB) (name emailAccountId : String) : Option Rule :=
  db.rules.find? (fun r => r.name == name && r.emailAccountId == emailAccountId)

/-- `savePatternCheck`: `prisma.newsletter.upsert` on key
`email_emailAccountId`, setting `patternAnalyzed := true` and a fresh
`lastAnalyzedAt` both on update and on create. -/
def savePatternCheck (db : DB) (emailAccountId fromAddr : String) (now : Nat) : DB :=
  if db.newsletters.any (fun n => n.email == fromAddr && n.emailAccountId == emailAccountId) then
    { db with newsletters := db.newsletters.map (fun n =>
        if n.email == fromAddr && n.emailAccountId == emailAccountId then
          { n with patternAnalyzed := true, lastAnalyzedAt := some now }
        else n) }
  else
    { db with newsletters :=
        db.newsletters ++ [⟨fromAddr, emailAccountId, true, some now⟩] }

/-- `prisma.group.create` with `rule: { connect: { id: ruleId } }`: a fresh
group named after the rule is appended and the rule's `groupId` foreign key
is set to it. Returns the new group id. -/
def createGroupForRule (db : DB) (emailAccountId ruleName : String) (ruleId : Nat) :
    DB × Nat :=
  let gid := db.nextId
  ({ db with
      groups := db.groups ++ [⟨gid, emailAccountId, ruleName, ruleId⟩],
      rules := db.rules.map (fun r =>
        if r.id == ruleId then { r with groupId := some gid } else r),
      nextId := db.nextId + 1 }, gid)

/-- `prisma.groupItem.upsert` as used by `saveLearnedPattern`: `update: {}`
(an existing row is left untouched, its exclude flag included) and
`create` with the Prisma default `exclude = false`. -/
def upsertGroupItemNoop (db : DB) (gid : Nat) (ty : GroupItemType) (v : String) : DB :=
  if db.groupItems.any (fun it => it.groupId == gid && it.type == ty && it.value == v) then
    db
  else
    { db with groupItems := db.groupItems ++ [⟨gid, ty, v, false⟩] }

/-- `prisma.groupItem.upsert` as used by `saveLearnedPatterns`: both the
update and the create branch set `exclude` from the asserted pattern. -/
def upsertGroupItemOverwrite (db : DB) (gid : Nat) (ty : GroupItemType) (v : String)
    (excl : Bool) : DB :=
  if db.groupItems.any (fun it => it.groupId == gid && it.type == ty && it.value == v) then
    { db with groupItems := db.groupItems.map (fun it =>
        if it.groupId == gid && it.type == ty && it.value == v then
          { it with exclude := excl }
        else it) }
  else
    { db with groupItems := db.groupItems ++ [⟨gid, ty, v, excl⟩] }

/-- `saveLearnedPattern` (`@/utils/rule/learned-patterns`): looks up the rule
by (name, account); on a miss logs and returns; otherwise materializes the
rule's group if absent and upserts a FROM criterion with `update: {}`. -/
def saveLearnedPattern (db : DB) (emailAccountId fromAddr ruleName : String) : DB :=
  match findRule db ruleName emailAccountId with
  | none => db
  | some rule =>
    match rule.groupId with
    | some gid => upsertGroupItemNoop db gid GroupItemType.FROM fromAddr
    | none =>
      let created := createGroupForRule db emailAccountId ruleName rule.id
      upsertGroupItemNoop created.1 created.2 GroupItemType.FROM fromAddr

/-- One element of the `patterns` argument of `saveLearnedPatterns`; the
optional exclude flag defaults to `false` (`pattern.exclude || false`). -/
structure LearnedPatternInput where
  type : GroupItemType
  value : String
  exclude : Option Bool
deriving DecidableEq, Repr

/-- `saveLearnedPatterns` (`@/utils/rule/learned-patterns`): same rule lookup
and lazy group creation, then upserts every pattern with the overwriting
variant of the criterion upsert. -/
def saveLearnedPatterns (db : DB) (emailAccountId ruleName : String)
    (patterns : List LearnedPatternInput) : DB :=
  match findRule db ruleName emailAccountId with
  | none => db
  | some rule =>
    let start : DB × Nat :=
      match rule.groupId with
      | some gid => (db, gid)
      | none => createGroupForRule db emailAccountId ruleName rule.id
    patterns.foldl (fun d p =>
      upsertGroupItemOverwrite d start.2 p.type p.value (p.exclude.getD false)) start.1

/-- Conversation test from `getThreadsFromSender`: a thread has "other
senders" when some message's extracted from-address differs from the
address under analysis. -/
def hasOtherSenders (fromAddr : String) (t : Thread) : Bool :=
  (t.messages.map (fun m => extractEmailAddress m.headersFrom)).any (fun s => s != fromAddr)

/-- The fetch loop of `getThreadsFromSender`: threads are accumulated in
order, but the first conversation thread aborts the whole traversal
(`none`), discarding everything collected so far. -/
def collectThreads (fromAddr : String) : List Thread → Option (List ThreadWithMessages)
  | [] => some []
  | t :: rest =>
    if hasOtherSenders fromAddr t then none
    else (collectThreads fromAddr rest).map (fun l => ⟨t.id, t.messages⟩ :: l)

/-- `getThreadsFromSender`: normalizes the sender, queries the provider
(`threads` is the provider's answer to `from:<address> -label:sent
-label:draft`), and filters; an aborted traversal yields `[]`. -/
def getThreadsFromSender (threads : List Thread) (sender : String) :
    List ThreadWithMessages :=
  (collectThreads (extractEmailAddress sender) threads).getD []

/-- Outcome of one run of the background `process` function, matching its
return branches (the 404 responses, the early `success: true` returns and
the completed analysis). -/
inductive Outcome where
  | accountNotFound
  | alreadyAnalyzed
  | noTokens
  | noThreads
  | notEnoughMessages
  | completed
deriving DecidableEq, Repr

/-- Whether the branch responds `success: true` (the 404 branches for a
missing account or missing tokens do not). -/
def Outcome.isSuccess : Outcome → Bool
  | Outcome.accountNotFound => false
  | Outcome.noTokens => false
  | _ => true

/-- Result of one run of `process`: the resulting store, whether the mail
provider and the oracle were reached, the branch taken, the key used for the
Sender Check lookup (`none` when the run aborted before it), and the
address interpolated into the provider's `from:` query (`none` when the run
aborted before the fetch). -/
structure ProcResult where
  db : DB
  providerCalled : Bool
  oracleCalled : Bool
  outcome : Outcome
  checkKey : Option String
  queryFrom : Option String
deriving DecidableEq, Repr

/-- The background `process` function of the route. `accountExists` stands
for `getEmailAccountWithRules` finding the account, `hasTokens` for the
presence of both OAuth tokens, `threads` for the provider's answer to the
sender query, and `oracle` for `aiDetectRecurringPattern`'s
`matchedRule`. Branches follow the source in order: account check, Sender
Check lookup (keyed by `extractEmailAddress from`), token check, thread
fetch and filter, message-count gate, oracle, conditional
`saveLearnedPattern`, then `savePatternCheck`. -/
def process (db : DB) (accountExists hasTokens : Bool) (threads : List Thread)
    (oracle : Option String) (emailAccountId fromAddr : String) (now : Nat) :
    ProcResult :=
  if accountExists = false then
    ⟨db, false, false, Outcome.accountNotFound, none, none⟩
  else
    let key := extractEmailAddress fromAddr
    let existing := findNewsletter db key emailAccountId
    if (existing.map Newsletter.patternAnalyzed).getD false then
      ⟨db, false, false, Outcome.alreadyAnalyzed, some key, none⟩
    else if hasTokens = false then
      ⟨db, false, false, Outcome.noTokens, some key, none⟩
    else
      let twm := getThreadsFromSender threads fromAddr
      if twm.length = 0 then
        ⟨db, true, false, Outcome.noThreads, some key, some key⟩
      else
        let allMessages := twm.flatMap ThreadWithMessages.messages
        if allMessages.length < THRESHOLD_EMAILS then
          ⟨db, true, false, Outcome.notEnoughMessages, some key, some key⟩
        else
          let db1 :=
            match oracle with
            | some ruleName => saveLearnedPattern db emailAccountId fromAddr ruleName
            | none => db
          let db2 := savePatternCheck db1 emailAccountId fromAddr now
          ⟨db2, true, true, Outcome.completed, some key, some key⟩

/-- The POST handler's contribution to the pipeline: the raw `from` field of
the request body is normalized with `extractEmailAddress` before the
background process is scheduled with it. -/
def analyzeSenderPattern (db : DB) (accountExists hasTokens : Bool)
    (threads : List Thread) (oracle : Option String)
    (emailAccountId rawFrom : String) (now : Nat) : ProcResult :=
  process db accountExists hasTokens threads oracle emailAccountId
    (extractEmailAddress rawFrom) now

/-- Count of ledger rows with a given key. -/
def countNews (db : DB) (email emailAccountId : String) : Nat :=
  db.newsletters.countP (fun n => n.email == email && n.emailAccountId == emailAccountId)

/-- The persistence operations two concurrent duplicate writers interleave:
the lazy container materialization, the criterion upsert and the ledger
upsert, each atomic at the storage layer. -/
inductive DbOp where
  | ensureGroup (emailAccountId ruleName : String)
  | upsertCriterion (emailAccountId ruleName : String) (value : String)
  | upsertLedger (email emailAccountId : String) (now : Nat)
deriving DecidableEq, Repr

/-- Modelled from the spec: the storage layer makes the container
materialization an atomic idempotent create-if-absent (a uniqueness
constraint on the rule-to-container link; the Prisma schema is not part of
the source sample), the criterion upsert a no-op merge, and the ledger
upsert last-writer-wins; each `DbOp` runs atomically on the store. -/
def DbOp.run (db : DB) : DbOp → DB
  | DbOp.ensureGroup emailAccountId ruleName =>
    match findRule db ruleName emailAccountId with
    | none => db
    | some rule =>
      match rule.groupId with
      | some _ => db
      | none => (createGroupForRule db emailAccountId ruleName rule.id).1
  | DbOp.upsertCriterion emailAccountId ruleName v =>
    match findRule db ruleName emailAccountId with
    | none => db
    | some rule =>
      match rule.groupId with
      | some gid => upsertGroupItemNoop db gid GroupItemType.FROM v
      | none => db
  | DbOp.upsertLedger email emailAccountId now =>
    savePatternCheck db emailAccountId email now

/-- Run an interleaved schedule of atomic persistence operations. -/
def runOps (ops : List DbOp) (db : DB) : DB :=
  ops.foldl DbOp.run db

/-- A one-way message from the example sender. -/
def exMsg : Message := ⟨"news@example.com", "issue"⟩

/-- A reply by a third party, making its thread a conversation. -/
def exReply : Message := ⟨"Other <other@x.com>", "re: issue"⟩

/-- A one-way thread with two messages from the example sender. -/
def exThread : Thread := ⟨"t1", [exMsg, exMsg]⟩

/-- A conversation thread: one message is from a third party. -/
def exConvThread : Thread := ⟨"t2", [exMsg, exReply]⟩

/-- Store holding a Sender Check row already marked analyzed. -/
def exDbAnalyzed : DB :=
  ⟨[⟨"news@example.com", "A", true, some 1⟩], [], [], [], 0⟩

/-- Store holding a Sender Check row not yet analyzed. -/
def exDbUnanalyzed : DB :=
  ⟨[⟨"news@example.com", "A", false, none⟩], [], [], [], 0⟩

/-- Store holding one enabled rule with no group yet. -/
def exDbRule : DB :=
  ⟨[], [⟨1, "Newsletters", "A", none, true, some "ai"⟩], [], [], 2⟩

/-- Well-formedness invariants the storage layer guarantees: the fresh-id
counter is above every existing group id and every criterion's container id,
group ids are unique, and criteria are unique per (container, kind, value)
key — the uniqueness constraints of §3 of the data model. -/
def DB.WF (db : DB) : Prop :=
  (∀ g ∈ db.groups, g.id < db.nextId) ∧
  (∀ it ∈ db.groupItems, it.groupId < db.nextId) ∧
  (∀ g ∈ db.groups, db.groups.countP (fun g2 => g2.id == g.id) = 1) ∧
  (∀ it ∈ db.groupItems,
    db.groupItems.countP (fun it2 =>
      it2.groupId == it.groupId && it2.type == it.type &&
        it2.value == it.value) = 1)

instance (db : DB) : Decidable db.WF := by
  unfold DB.WF
  infer_instance

/-- Number of containers the rule (name, account) can still lazily create:
one when the rule exists without a linked group, zero otherwise. -/
def groupSlack (db : DB) (ruleName emailAccountId : String) : Nat :=
  match findRule db ruleName emailAccountId with
  | none => 0
  | some rule =>
    match rule.groupId with
    | some _ => 0
    | none => 1

/-- A message whose from header carries a display name. -/
def exJaneMsg : Message := ⟨"Jane Doe <jane@example.com>", "hello"⟩

/-- A one-way thread of three messages from the display-name sender. -/
def exJaneThread : Thread := ⟨"tj", [exJaneMsg, exJaneMsg, exJaneMsg]⟩

/-- Interleaved schedule of two concurrent duplicate writers, each running
the container materialization, the criterion upsert, and the ledger upsert
for the same (account, rule, sender). -/
def exOps : List DbOp :=
  [DbOp.ensureGroup "A" "Newsletters",
    DbOp.upsertCriterion "A" "Newsletters" "news@example.com",
    DbOp.ensureGroup "A" "Newsletters",
    DbOp.upsertCriterion "A" "Newsletters" "news@example.com",
    DbOp.upsertLedger "news@example.com" "A" 3,
    DbOp.upsertLedger "news@example.com" "A" 4]

/-- Store with a rule linked to group 5 that already holds a FROM criterion
with `exclude = true`. -/
def exDbPattern : DB :=
  ⟨[], [⟨1, "Newsletters", "A", some 5, true, some "ai"⟩],
    [⟨5, "A", "Newsletters", 1⟩],
    [⟨5, GroupItemType.FROM, "news@example.com", true⟩], 6⟩

end SenderPattern

namespace SenderPattern

theorem collectThreads_eq_none {fromAddr : String} {threads : List Thread}
    {t : Thread} (ht : t ∈ threads) (hconv : hasOtherSenders fromAddr t = true) :
    collectThreads fromAddr threads = none := by
  induction threads with
  | nil => cases ht
  | cons hd tl ih =>
    rcases List.mem_cons.mp ht with rfl | hmem
    · simp [collectThreads, hconv]
    · unfold collectThreads
      split
      · rfl
      · rw [ih hmem]
        rfl

theorem collectThreads_one_way {fromAddr : String} {threads : List Thread}
    {l : List ThreadWithMessages} (h : collectThreads fromAddr threads = some l)
    {twm : ThreadWithMessages} (htwm : twm ∈ l) {m : Message}
    (hm : m ∈ twm.messages) :
    extractEmailAddress m.headersFrom = fromAddr := by
  induction threads generalizing l with
  | nil =>
    unfold collectThreads at h
    cases h
    cases htwm
  | cons hd tl ih =>
    unfold collectThreads at h
    by_cases hc : hasOtherSenders fromAddr hd = true
    · rw [if_pos hc] at h
      cases h
    · rw [if_neg hc] at h
      cases hrest : collectThreads fromAddr tl with
      | none => rw [hrest] at h; cases h
      | some l0 =>
        rw [hrest] at h
        cases h
        rcases List.mem_cons.mp htwm with rfl | hmem
        · by_contra hne
          apply hc
          unfold hasOtherSenders
          rw [List.any_eq_true]
          exact ⟨extractEmailAddress m.headersFrom, List.mem_map.mpr ⟨m, hm, rfl⟩,
            bne_iff_ne.mpr hne⟩
        · exact ih hrest hmem

theorem afterLt_eq_none {l : List Char} (h : '<' ∉ l) : afterLt l = none := by
  induction l with
  | nil => rfl
  | cons c rest ih =>
    have hc : ¬ c = '<' := fun hc => h (hc ▸ List.mem_cons_self c rest)
    unfold afterLt
    rw [if_neg hc]
    exact ih (fun hm => h (List.mem_cons_of_mem _ hm))

theorem extractEmailAddress_idem {s : String}
    (h : '<' ∉ (extractEmailAddress s).data) :
    extractEmailAddress (extractEmailAddress s) = extractEmailAddress s := by
  show (match afterLt (extractEmailAddress s).data with
    | some rest => String.mk (beforeGt rest)
    | none => extractEmailAddress s) = extractEmailAddress s
  rw [afterLt_eq_none h]

theorem savePatternCheck_mem (db : DB) (emailAccountId fromAddr : String)
    (now : Nat) :
    ∃ n ∈ (savePatternCheck db emailAccountId fromAddr now).newsletters,
      n.email = fromAddr ∧ n.emailAccountId = emailAccountId ∧
      n.patternAnalyzed = true ∧ n.lastAnalyzedAt = some now := by
  unfold savePatternCheck
  by_cases h : db.newsletters.any
      (fun n => n.email == fromAddr && n.emailAccountId == emailAccountId) = true
  · obtain ⟨n0, hmem, hkey⟩ := List.any_eq_true.mp h
    have hk2 : n0.email = fromAddr ∧ n0.emailAccountId = emailAccountId := by
      simpa using hkey
    refine ⟨{ n0 with patternAnalyzed := true, lastAnalyzedAt := some now },
      ?_, hk2.1, hk2.2, rfl, rfl⟩
    simp only [h, if_true]
    refine List.mem_map.mpr ⟨n0, hmem, ?_⟩
    rw [if_pos hkey]
  · refine ⟨⟨fromAddr, emailAccountId, true, some now⟩, ?_, rfl, rfl, rfl, rfl⟩
    simp [h]

theorem savePatternCheck_frame (db : DB) (emailAccountId fromAddr : String)
    (now : Nat) :
    (savePatternCheck db emailAccountId fromAddr now).groupItems =
        db.groupItems ∧
    (savePatternCheck db emailAccountId fromAddr now).groups = db.groups ∧
    (savePatternCheck db emailAccountId fromAddr now).rules = db.rules := by
  unfold savePatternCheck
  split <;> exact ⟨rfl, rfl, rfl⟩

theorem saveLearnedPattern_newsletters (db : DB)
    (emailAccountId fromAddr ruleName : String) :
    (saveLearnedPattern db emailAccountId fromAddr ruleName).newsletters =
      db.newsletters := by
  unfold saveLearnedPattern
  split
  · rfl
  · split <;> (simp only [upsertGroupItemNoop, createGroupForRule]; split <;> rfl)

theorem saveLearnedPattern_items (db : DB)
    (emailAccountId fromAddr ruleName : String) :
    ∀ it ∈ (saveLearnedPattern db emailAccountId fromAddr ruleName).groupItems,
      it ∈ db.groupItems ∨ it.value = fromAddr := by
  intro it hit
  unfold saveLearnedPattern at hit
  revert hit
  split
  · exact fun hit => Or.inl hit
  · split <;>
    · simp only [upsertGroupItemNoop, createGroupForRule]
      split
      · exact fun hit => Or.inl hit
      · intro hit
        rcases List.mem_append.mp hit with h | h
        · exact Or.inl h
        · right
          rw [List.mem_singleton.mp h]

theorem upsertGroupItemNoop_rules (db : DB) (gid : Nat) (ty : GroupItemType)
    (v : String) : (upsertGroupItemNoop db gid ty v).rules = db.rules := by
  unfold upsertGroupItemNoop
  split <;> rfl

theorem upsertGroupItemNoop_groups (db : DB) (gid : Nat) (ty : GroupItemType)
    (v : String) : (upsertGroupItemNoop db gid ty v).groups = db.groups := by
  unfold upsertGroupItemNoop
  split <;> rfl

theorem upsertGroupItemOverwrite_sets (db : DB) (gid : Nat)
    (ty : GroupItemType) (v : String) (e : Bool) :
    (∃ it2 ∈ (upsertGroupItemOverwrite db gid ty v e).groupItems,
      it2.groupId = gid ∧ it2.type = ty ∧ it2.value = v ∧ it2.exclude = e) ∧
    (∀ it2 ∈ (upsertGroupItemOverwrite db gid ty v e).groupItems,
      it2.groupId = gid → it2.type = ty → it2.value = v →
        it2.exclude = e) := by
  unfold upsertGroupItemOverwrite
  by_cases hany : db.groupItems.any
      (fun it => it.groupId == gid && it.type == ty && it.value == v) = true
  · simp only [hany, if_true]
    obtain ⟨it0, hmem, hk⟩ := List.any_eq_true.mp hany
    have hk3 : it0.groupId = gid ∧ it0.type = ty ∧ it0.value = v := by
      simpa [and_assoc] using hk
    constructor
    · refine ⟨{ it0 with exclude := e }, List.mem_map.mpr ⟨it0, hmem, ?_⟩,
        hk3.1, hk3.2.1, hk3.2.2, rfl⟩
      rw [if_pos hk]
    · intro it2 hit2 h1 h2 h3
      obtain ⟨it0', hmem', heq⟩ := List.mem_map.mp hit2
      by_cases hk' : (it0'.groupId == gid && it0'.type == ty &&
          it0'.value == v) = true
      · rw [if_pos hk'] at heq
        rw [← heq]
      · rw [if_neg hk'] at heq
        subst heq
        exact absurd (by simp [h1, h2, h3]) hk'
  · simp only [hany, if_false]
    constructor
    · exact ⟨⟨gid, ty, v, e⟩, by simp, rfl, rfl, rfl, rfl⟩
    · intro it2 hit2 h1 h2 h3
      rcases List.mem_append.mp hit2 with h | h
      · exact absurd
          (List.any_eq_true.mpr ⟨it2, h, by simp [h1, h2, h3]⟩) hany
      · rw [List.mem_singleton.mp h]

theorem find?_map_of_pred {α : Type} (l : List α) (f : α → α) (p : α → Bool)
    (h : ∀ a, p (f a) = p a) :
    (l.map f).find? p = (l.find? p).map f := by
  induction l with
  | nil => rfl
  | cons a t ih =>
    by_cases hp : p a = true
    · rw [List.map_cons, List.find?_cons_of_pos _ (by rw [h]; exact hp),
        List.find?_cons_of_pos _ hp]
      rfl
    · have hp2 : ¬ p (f a) = true := by rw [h]; exact hp
      rw [List.map_cons, List.find?_cons_of_neg _ hp2,
        List.find?_cons_of_neg _ hp]
      exact ih

theorem groups_count_le_one (db : DB)
    (hwf3 : ∀ g ∈ db.groups, db.groups.countP (fun g2 => g2.id == g.id) = 1)
    (g : Nat) : db.groups.countP (fun g2 => g2.id == g) ≤ 1 := by
  by_cases h : db.groups.any (fun g2 => g2.id == g) = true
  · obtain ⟨g0, hmem, hk⟩ := List.any_eq_true.mp h
    have hcount := hwf3 g0 hmem
    have hg0 : g0.id = g := by simpa using hk
    rw [hg0] at hcount
    exact le_of_eq hcount
  · have h0 : db.groups.countP (fun g2 => g2.id == g) = 0 :=
      List.countP_eq_zero.mpr
        (fun a ha hk => h (List.any_eq_true.mpr ⟨a, ha, hk⟩))
    omega

theorem saveLearnedPattern_noop_of_exists (db : DB)
    (emailAccountId fromAddr ruleName : String) (rule : Rule) (g : Nat)
    (hr : findRule db ruleName emailAccountId = some rule)
    (hg : rule.groupId = some g)
    (hex : db.groupItems.any (fun it => it.groupId == g &&
      it.type == GroupItemType.FROM && it.value == fromAddr) = true) :
    saveLearnedPattern db emailAccountId fromAddr ruleName = db := by
  have hstep : saveLearnedPattern db emailAccountId fromAddr ruleName =
      upsertGroupItemNoop db g GroupItemType.FROM fromAddr := by
    simp [saveLearnedPattern, hr, hg]
  rw [hstep]
  unfold upsertGroupItemNoop
  rw [if_pos hex]

theorem process_keys (db : DB) (hasTokens : Bool) (threads : List Thread)
    (oracle : Option String) (emailAccountId fromAddr : String) (now : Nat)
    (hid : extractEmailAddress fromAddr = fromAddr) :
    (process db true hasTokens threads oracle emailAccountId fromAddr
        now).checkKey = some fromAddr ∧
    (∀ q, (process db true hasTokens threads oracle emailAccountId fromAddr
        now).queryFrom = some q → q = fromAddr) ∧
    (∀ it ∈ (process db true hasTokens threads oracle emailAccountId fromAddr
        now).db.groupItems, it ∈ db.groupItems ∨ it.value = fromAddr) ∧
    ((process db true hasTokens threads oracle emailAccountId fromAddr
        now).outcome = Outcome.completed →
      ∃ n ∈ (process db true hasTokens threads oracle emailAccountId fromAddr
          now).db.newsletters,
        n.email = fromAddr ∧ n.emailAccountId = emailAccountId ∧
        n.patternAnalyzed = true) := by
  by_cases h1 : ((findNewsletter db (extractEmailAddress fromAddr)
      emailAccountId).map Newsletter.patternAnalyzed).getD false = true
  · have hres : process db true hasTokens threads oracle emailAccountId
        fromAddr now = ⟨db, false, false, Outcome.alreadyAnalyzed,
          some (extractEmailAddress fromAddr), none⟩ := by
      simp [process, h1]
    rw [hres, hid]
    exact ⟨rfl, by simp, fun it h => Or.inl h, by simp⟩
  · have h1' : ((findNewsletter db (extractEmailAddress fromAddr)
        emailAccountId).map Newsletter.patternAnalyzed).getD false = false := by
      rwa [Bool.not_eq_true] at h1
    by_cases h2 : hasTokens = false
    · have hres : process db true hasTokens threads oracle emailAccountId
          fromAddr now = ⟨db, false, false, Outcome.noTokens,
            some (extractEmailAddress fromAddr), none⟩ := by
        simp [process, h1', h2]
      rw [hres, hid]
      exact ⟨rfl, by simp, fun it h => Or.inl h, by simp⟩
    · by_cases h3 : getThreadsFromSender threads fromAddr = []
      · have hres : process db true hasTokens threads oracle emailAccountId
            fromAddr now = ⟨db, true, false, Outcome.noThreads,
              some (extractEmailAddress fromAddr),
              some (extractEmailAddress fromAddr)⟩ := by
          simp [process, h1', h2, h3]
        rw [hres, hid]
        refine ⟨rfl, ?_, fun it h => Or.inl h, by simp⟩
        intro q hq
        exact (Option.some.injEq _ _ ▸ hq).symm
      · by_cases h4 : (List.map (List.length ∘ ThreadWithMessages.messages)
            (getThreadsFromSender threads fromAddr)).sum < THRESHOLD_EMAILS
        · have hres : process db true hasTokens threads oracle emailAccountId
              fromAddr now = ⟨db, true, false, Outcome.notEnoughMessages,
                some (extractEmailAddress fromAddr),
                some (extractEmailAddress fromAddr)⟩ := by
            simp [process, h1', h2, h3, h4]
          rw [hres, hid]
          refine ⟨rfl, ?_, fun it h => Or.inl h, by simp⟩
          intro q hq
          exact (Option.some.injEq _ _ ▸ hq).symm
        · have hres : process db true hasTokens threads oracle emailAccountId
              fromAddr now = ⟨savePatternCheck
                (match oracle with
                | some ruleName =>
                  saveLearnedPattern db emailAccountId fromAddr ruleName
                | none => db)
                emailAccountId fromAddr now,
              true, true, Outcome.completed,
              some (extractEmailAddress fromAddr),
              some (extractEmailAddress fromAddr)⟩ := by
            simp [process, h1', h2, h3, h4]
          rw [hres, hid]
          refine ⟨rfl, ?_, ?_, ?_⟩
          · intro q hq
            exact (Option.some.injEq _ _ ▸ hq).symm
          · intro it hit
            rw [(savePatternCheck_frame _ emailAccountId fromAddr now).1] at hit
            cases oracle with
            | none => exact Or.inl hit
            | some ruleName =>
              exact saveLearnedPattern_items db emailAccountId fromAddr
                ruleName it hit
          · intro _
            cases oracle with
            | none =>
              obtain ⟨n, hmem, he, ha, hp, _⟩ :=
                savePatternCheck_mem db emailAccountId fromAddr now
              exact ⟨n, hmem, he, ha, hp⟩
            | some ruleName =>
              obtain ⟨n, hmem, he, ha, hp, _⟩ :=
                savePatternCheck_mem
                  (saveLearnedPattern db emailAccountId fromAddr ruleName)
                  emailAccountId fromAddr now
              exact ⟨n, hmem, he, ha, hp⟩

theorem process_of_no_threads (db : DB) (accountExists hasTokens : Bool)
    (threads : List Thread) (oracle : Option String)
    (emailAccountId fromAddr : String) (now : Nat)
    (h : getThreadsFromSender threads fromAddr = []) :
    (process db accountExists hasTokens threads oracle emailAccountId fromAddr now).db
        = db ∧
    (process db accountExists hasTokens threads oracle emailAccountId fromAddr
        now).oracleCalled = false := by
  unfold process
  split
  · exact ⟨rfl, rfl⟩
  · simp only [h, List.length_nil]
    split
    · exact ⟨rfl, rfl⟩
    · split
      · exact ⟨rfl, rfl⟩
      · simp

/-- C1: a trigger for a sender whose Sender Check row already has
`analyzed = true` is a no-op: the store is unchanged, the mail provider and
the oracle are never reached, and the run exits on the already-analyzed
branch. -/
theorem alreadyAnalyzed_is_noop (db : DB) (hasTokens : Bool)
    (threads : List Thread) (oracle : Option String)
    (emailAccountId fromAddr : String) (now : Nat)
    (hpat : ((findNewsletter db (extractEmailAddress fromAddr)
        emailAccountId).map Newsletter.patternAnalyzed).getD false = true) :
    process db true hasTokens threads oracle emailAccountId fromAddr now =
      ⟨db, false, false, Outcome.alreadyAnalyzed,
        some (extractEmailAddress fromAddr), none⟩ := by
  simp [process, hpat]

theorem alreadyAnalyzed_is_noop_witness :
    ((findNewsletter exDbAnalyzed (extractEmailAddress "news@example.com")
        "A").map Newsletter.patternAnalyzed).getD false = true ∧
    process exDbAnalyzed true true [exThread] (some "Newsletters") "A"
        "news@example.com" 7 =
      ⟨exDbAnalyzed, false, false, Outcome.alreadyAnalyzed,
        some (extractEmailAddress "news@example.com"), none⟩ :=
  ⟨by decide,
    alreadyAnalyzed_is_noop exDbAnalyzed true [exThread] (some "Newsletters")
      "A" "news@example.com" 7 (by decide)⟩

/-- C2: a run that passes every gate (account found, not yet analyzed,
tokens present, surviving threads, at least `THRESHOLD_EMAILS` messages)
reaches the oracle and, whatever the oracle answered, writes the Sender
Check row with `analyzed = true` and the fresh timestamp; when the oracle
returns no match, no container, rule link or criterion is touched. -/
theorem completed_run_marks_analyzed (db : DB) (threads : List Thread)
    (oracle : Option String) (emailAccountId fromAddr : String) (now : Nat)
    (hAnal : ((findNewsletter db (extractEmailAddress fromAddr)
        emailAccountId).map Newsletter.patternAnalyzed).getD false = false)
    (hne : getThreadsFromSender threads fromAddr ≠ [])
    (hcount : THRESHOLD_EMAILS ≤ ((getThreadsFromSender threads
        fromAddr).flatMap ThreadWithMessages.messages).length) :
    (process db true true threads oracle emailAccountId fromAddr
        now).oracleCalled = true ∧
    (process db true true threads oracle emailAccountId fromAddr
        now).outcome = Outcome.completed ∧
    (∃ n ∈ (process db true true threads oracle emailAccountId fromAddr
        now).db.newsletters,
      n.email = fromAddr ∧ n.emailAccountId = emailAccountId ∧
      n.patternAnalyzed = true ∧ n.lastAnalyzedAt = some now) ∧
    (oracle = none →
      (process db true true threads oracle emailAccountId fromAddr
          now).db.groupItems = db.groupItems ∧
      (process db true true threads oracle emailAccountId fromAddr
          now).db.groups = db.groups ∧
      (process db true true threads oracle emailAccountId fromAddr
          now).db.rules = db.rules) := by
  have hlen : ¬ (getThreadsFromSender threads fromAddr).length = 0 := by
    simpa [List.length_eq_zero] using hne
  have hnotlt : ¬ (List.map (List.length ∘ ThreadWithMessages.messages)
      (getThreadsFromSender threads fromAddr)).sum < THRESHOLD_EMAILS := by
    have := not_lt.mpr hcount
    simpa using this
  have hres : process db true true threads oracle emailAccountId fromAddr now =
      ⟨savePatternCheck
          (match oracle with
          | some ruleName => saveLearnedPattern db emailAccountId fromAddr ruleName
          | none => db)
          emailAccountId fromAddr now,
        true, true, Outcome.completed, some (extractEmailAddress fromAddr),
        some (extractEmailAddress fromAddr)⟩ := by
    simp [process, hAnal, hlen, hnotlt]
  refine ⟨?_, ?_, ?_, ?_⟩
  · rw [hres]
  · rw [hres]
  · rw [hres]
    exact savePatternCheck_mem _ emailAccountId fromAddr now
  · intro horacle
    subst horacle
    rw [hres]
    exact savePatternCheck_frame db emailAccountId fromAddr now

theorem completed_run_marks_analyzed_witness :
    ((findNewsletter exDbRule (extractEmailAddress "news@example.com")
        "A").map Newsletter.patternAnalyzed).getD false = false ∧
    getThreadsFromSender [exThread, exThread] "news@example.com" ≠ [] ∧
    THRESHOLD_EMAILS ≤ ((getThreadsFromSender [exThread, exThread]
        "news@example.com").flatMap ThreadWithMessages.messages).length ∧
    (∃ n ∈ (process exDbRule true true [exThread, exThread] none "A"
        "news@example.com" 9).db.newsletters,
      n.email = "news@example.com" ∧ n.emailAccountId = "A" ∧
      n.patternAnalyzed = true ∧ n.lastAnalyzedAt = some 9) ∧
    (process exDbRule true true [exThread, exThread] none "A"
        "news@example.com" 9).db.groupItems = exDbRule.groupItems :=
  ⟨by decide, by decide, by decide,
    (completed_run_marks_analyzed exDbRule [exThread, exThread] none "A"
      "news@example.com" 9 (by decide) (by decide) (by decide)).2.2.1,
    ((completed_run_marks_analyzed exDbRule [exThread, exThread] none "A"
      "news@example.com" 9 (by decide) (by decide) (by decide)).2.2.2 rfl).1⟩

/-- C8: a trigger whose sender is supplied with a display name and angle
brackets is normalized to the bare address before any lookup, and that
normalized form is the key used downstream: the Sender Check lookup key, the
address in the provider query, the written Sender Check row, and the value
of any criterion added by the run. -/
theorem trigger_normalizes_sender (db : DB) (hasTokens : Bool)
    (threads : List Thread) (oracle : Option String)
    (emailAccountId rawFrom : String) (now : Nat)
    (hlt : '<' ∉ (extractEmailAddress rawFrom).data) :
    (analyzeSenderPattern db true hasTokens threads oracle emailAccountId
        rawFrom now).checkKey = some (extractEmailAddress rawFrom) ∧
    (∀ q, (analyzeSenderPattern db true hasTokens threads oracle
        emailAccountId rawFrom now).queryFrom = some q →
      q = extractEmailAddress rawFrom) ∧
    (∀ it ∈ (analyzeSenderPattern db true hasTokens threads oracle
        emailAccountId rawFrom now).db.groupItems,
      it ∈ db.groupItems ∨ it.value = extractEmailAddress rawFrom) ∧
    ((analyzeSenderPattern db true hasTokens threads oracle emailAccountId
        rawFrom now).outcome = Outcome.completed →
      ∃ n ∈ (analyzeSenderPattern db true hasTokens threads oracle
          emailAccountId rawFrom now).db.newsletters,
        n.email = extractEmailAddress rawFrom ∧
        n.emailAccountId = emailAccountId ∧ n.patternAnalyzed = true) := by
  simp only [analyzeSenderPattern]
  exact process_keys db hasTokens threads oracle emailAccountId
    (extractEmailAddress rawFrom) now (extractEmailAddress_idem hlt)

theorem trigger_normalizes_sender_witness :
    extractEmailAddress "Jane Doe <jane@example.com>" = "jane@example.com" ∧
    '<' ∉ (extractEmailAddress "Jane Doe <jane@example.com>").data ∧
    ((analyzeSenderPattern exDbRule true true [exJaneThread]
        (some "Newsletters") "A" "Jane Doe <jane@example.com>" 4).checkKey =
      some (extractEmailAddress "Jane Doe <jane@example.com>") ∧
    (∀ q, (analyzeSenderPattern exDbRule true true [exJaneThread]
        (some "Newsletters") "A" "Jane Doe <jane@example.com>" 4).queryFrom =
        some q → q = extractEmailAddress "Jane Doe <jane@example.com>") ∧
    (∀ it ∈ (analyzeSenderPattern exDbRule true true [exJaneThread]
        (some "Newsletters") "A" "Jane Doe <jane@example.com>"
        4).db.groupItems,
      it ∈ exDbRule.groupItems ∨
        it.value = extractEmailAddress "Jane Doe <jane@example.com>") ∧
    ((analyzeSenderPattern exDbRule true true [exJaneThread]
        (some "Newsletters") "A" "Jane Doe <jane@example.com>" 4).outcome =
        Outcome.completed →
      ∃ n ∈ (analyzeSenderPattern exDbRule true true [exJaneThread]
          (some "Newsletters") "A" "Jane Doe <jane@example.com>"
          4).db.newsletters,
        n.email = extractEmailAddress "Jane Doe <jane@example.com>" ∧
        n.emailAccountId = "A" ∧ n.patternAnalyzed = true)) :=
  ⟨by decide, by decide,
    trigger_normalizes_sender exDbRule true [exJaneThread]
      (some "Newsletters") "A" "Jane Doe <jane@example.com>" 4 (by decide)⟩

/-- C3: one conversation thread (a message whose extracted address differs
from the address under analysis) empties the whole result of
`getThreadsFromSender`, discarding every one-way thread as well, and hence
the run never reaches the oracle and leaves the store unchanged. -/
theorem conversation_short_circuits (threads : List Thread) (sender : String)
    (t : Thread) (ht : t ∈ threads) (m : Message) (hm : m ∈ t.messages)
    (hdiff : extractEmailAddress m.headersFrom ≠ extractEmailAddress sender) :
    getThreadsFromSender threads sender = [] ∧
    ∀ (db : DB) (accountExists hasTokens : Bool) (oracle : Option String)
      (emailAccountId : String) (now : Nat),
      (process db accountExists hasTokens threads oracle emailAccountId sender
          now).db = db ∧
      (process db accountExists hasTokens threads oracle emailAccountId sender
          now).oracleCalled = false := by
  have hconv : hasOtherSenders (extractEmailAddress sender) t = true := by
    unfold hasOtherSenders
    rw [List.any_eq_true]
    exact ⟨extractEmailAddress m.headersFrom, List.mem_map.mpr ⟨m, hm, rfl⟩,
      bne_iff_ne.mpr hdiff⟩
  have hempty : getThreadsFromSender threads sender = [] := by
    unfold getThreadsFromSender
    rw [collectThreads_eq_none ht hconv]
    rfl
  exact ⟨hempty, fun db accountExists hasTokens oracle emailAccountId now =>
    process_of_no_threads db accountExists hasTokens threads oracle
      emailAccountId sender now hempty⟩

theorem conversation_short_circuits_witness :
    exConvThread ∈ [exThread, exThread, exConvThread] ∧
    exReply ∈ exConvThread.messages ∧
    extractEmailAddress exReply.headersFrom ≠
      extractEmailAddress "news@example.com" ∧
    getThreadsFromSender [exThread, exThread, exConvThread]
      "news@example.com" = [] :=
  ⟨by decide, by decide, by decide,
    (conversation_short_circuits [exThread, exThread, exConvThread]
      "news@example.com" exConvThread (by decide) exReply (by decide)
      (by decide)).1⟩

/-- C4: with insufficient evidence (no surviving threads, or fewer than
three messages across them) and the other gates open, the run completes on
a success branch, never calls the oracle, and writes nothing: the store is
returned unchanged. -/
theorem insufficient_evidence_no_write (db : DB) (threads : List Thread)
    (oracle : Option String) (emailAccountId fromAddr : String) (now : Nat)
    (hAnal : ((findNewsletter db (extractEmailAddress fromAddr)
        emailAccountId).map Newsletter.patternAnalyzed).getD false = false)
    (hEv : getThreadsFromSender threads fromAddr = [] ∨
      ((getThreadsFromSender threads fromAddr).flatMap
        ThreadWithMessages.messages).length < THRESHOLD_EMAILS) :
    (process db true true threads oracle emailAccountId fromAddr now).db = db ∧
    (process db true true threads oracle emailAccountId fromAddr
        now).outcome.isSuccess = true ∧
    (process db true true threads oracle emailAccountId fromAddr
        now).oracleCalled = false := by
  by_cases hz : getThreadsFromSender threads fromAddr = []
  · simp [process, hAnal, hz, Outcome.isSuccess]
  · have hlt : ((getThreadsFromSender threads fromAddr).flatMap
        ThreadWithMessages.messages).length < THRESHOLD_EMAILS := by
      rcases hEv with h | h
      · exact absurd h hz
      · exact h
    have hlen : ¬ (getThreadsFromSender threads fromAddr).length = 0 := by
      simpa [List.length_eq_zero] using hz
    have hlt2 : (List.map (List.length ∘ ThreadWithMessages.messages)
        (getThreadsFromSender threads fromAddr)).sum < THRESHOLD_EMAILS := by
      simpa using hlt
    simp [process, hAnal, hlen, hlt2, Outcome.isSuccess]

theorem insufficient_evidence_no_write_witness :
    ((findNewsletter exDbUnanalyzed (extractEmailAddress "news@example.com")
        "A").map Newsletter.patternAnalyzed).getD false = false ∧
    ((getThreadsFromSender [exThread] "news@example.com").flatMap
        ThreadWithMessages.messages).length < THRESHOLD_EMAILS ∧
    (process exDbUnanalyzed true true [exThread] (some "Newsletters") "A"
        "news@example.com" 7).db = exDbUnanalyzed ∧
    (process exDbUnanalyzed true true [exThread] (some "Newsletters") "A"
        "news@example.com" 7).outcome.isSuccess = true ∧
    (process exDbUnanalyzed true true [exThread] (some "Newsletters") "A"
        "news@example.com" 7).oracleCalled = false :=
  ⟨by decide, by decide,
    insufficient_evidence_no_write exDbUnanalyzed [exThread]
      (some "Newsletters") "A" "news@example.com" 7 (by decide)
      (Or.inr (by decide))⟩

/-- C7: when no rule with the given name exists for the account,
`saveLearnedPattern` returns with the store untouched: no container and no
criterion is created or modified. -/
theorem saveLearnedPattern_rule_absent (db : DB)
    (emailAccountId fromAddr ruleName : String)
    (h : findRule db ruleName emailAccountId = none) :
    saveLearnedPattern db emailAccountId fromAddr ruleName = db := by
  simp [saveLearnedPattern, h]

theorem saveLearnedPattern_rule_absent_witness :
    findRule exDbUnanalyzed "Newsletters" "A" = none ∧
    saveLearnedPattern exDbUnanalyzed "A" "news@example.com" "Newsletters" =
      exDbUnanalyzed :=
  ⟨by decide,
    saveLearnedPattern_rule_absent exDbUnanalyzed "A" "news@example.com"
      "Newsletters" (by decide)⟩

/-- C5: from any well-formed store in which the rule exists,
`saveLearnedPattern` leaves the rule linked to a container holding exactly
one FROM criterion with the given value, the rule's container id matches at
most one container row, and a second identical call changes nothing. -/
theorem saveLearnedPattern_idempotent_unique (db : DB)
    (emailAccountId fromAddr ruleName : String) (rule : Rule)
    (hwf : db.WF) (hr : findRule db ruleName emailAccountId = some rule) :
    ∃ g rule2,
      findRule (saveLearnedPattern db emailAccountId fromAddr ruleName)
          ruleName emailAccountId = some rule2 ∧
      rule2.groupId = some g ∧
      (saveLearnedPattern db emailAccountId fromAddr
          ruleName).groupItems.countP
        (fun it => it.groupId == g && it.type == GroupItemType.FROM &&
          it.value == fromAddr) = 1 ∧
      (saveLearnedPattern db emailAccountId fromAddr ruleName).groups.countP
        (fun g2 => g2.id == g) ≤ 1 ∧
      saveLearnedPattern (saveLearnedPattern db emailAccountId fromAddr
          ruleName) emailAccountId fromAddr ruleName =
        saveLearnedPattern db emailAccountId fromAddr ruleName := by
  obtain ⟨hwf1, hwf2, hwf3, hwf4⟩ := hwf
  cases hgid : rule.groupId with
  | some g =>
    have hstep : saveLearnedPattern db emailAccountId fromAddr ruleName =
        upsertGroupItemNoop db g GroupItemType.FROM fromAddr := by
      simp [saveLearnedPattern, hr, hgid]
    have hfind2 : findRule (upsertGroupItemNoop db g GroupItemType.FROM
        fromAddr) ruleName emailAccountId = some rule := by
      unfold findRule at hr ⊢
      rw [upsertGroupItemNoop_rules]
      exact hr
    have hcount : (upsertGroupItemNoop db g GroupItemType.FROM
        fromAddr).groupItems.countP
        (fun it => it.groupId == g && it.type == GroupItemType.FROM &&
          it.value == fromAddr) = 1 := by
      by_cases hany : db.groupItems.any
          (fun it => it.groupId == g && it.type == GroupItemType.FROM &&
            it.value == fromAddr) = true
      · have hsame : (upsertGroupItemNoop db g GroupItemType.FROM
            fromAddr).groupItems = db.groupItems := by
          unfold upsertGroupItemNoop
          rw [if_pos hany]
        obtain ⟨it0, hmem, hk⟩ := List.any_eq_true.mp hany
        have hk3 : it0.groupId = g ∧ it0.type = GroupItemType.FROM ∧
            it0.value = fromAddr := by
          simpa [and_assoc] using hk
        have hcnt := hwf4 it0 hmem
        rw [hk3.1, hk3.2.1, hk3.2.2] at hcnt
        rw [hsame]
        exact hcnt
      · have happ : (upsertGroupItemNoop db g GroupItemType.FROM
            fromAddr).groupItems =
            db.groupItems ++ [⟨g, GroupItemType.FROM, fromAddr, false⟩] := by
          unfold upsertGroupItemNoop
          rw [if_neg hany]
        have hz : db.groupItems.countP
            (fun it => it.groupId == g && it.type == GroupItemType.FROM &&
              it.value == fromAddr) = 0 :=
          List.countP_eq_zero.mpr
            (fun a ha hk => hany (List.any_eq_true.mpr ⟨a, ha, hk⟩))
        rw [happ, List.countP_append, hz]
        simp [List.countP_cons]
    have hex2 : (upsertGroupItemNoop db g GroupItemType.FROM
        fromAddr).groupItems.any
        (fun it => it.groupId == g && it.type == GroupItemType.FROM &&
          it.value == fromAddr) = true :=
      List.any_eq_true.mpr (List.countP_pos_iff.mp (by rw [hcount]; omega))
    refine ⟨g, rule, ?_, hgid, ?_, ?_, ?_⟩
    · rw [hstep]
      exact hfind2
    · rw [hstep]
      exact hcount
    · rw [hstep, upsertGroupItemNoop_groups]
      exact groups_count_le_one db hwf3 g
    · rw [hstep]
      exact saveLearnedPattern_noop_of_exists _ emailAccountId fromAddr
        ruleName rule g hfind2 hgid hex2
  | none =>
    have hstep : saveLearnedPattern db emailAccountId fromAddr ruleName =
        upsertGroupItemNoop
          (createGroupForRule db emailAccountId ruleName rule.id).1
          (createGroupForRule db emailAccountId ruleName rule.id).2
          GroupItemType.FROM fromAddr := by
      simp [saveLearnedPattern, hr, hgid]
    have h1items : (createGroupForRule db emailAccountId ruleName
        rule.id).1.groupItems = db.groupItems := rfl
    have h1rules : (createGroupForRule db emailAccountId ruleName
        rule.id).1.rules = db.rules.map (fun r =>
          if r.id == rule.id then { r with groupId := some db.nextId }
          else r) := rfl
    have h1groups : (createGroupForRule db emailAccountId ruleName
        rule.id).1.groups =
        db.groups ++ [⟨db.nextId, emailAccountId, ruleName, rule.id⟩] := rfl
    have h2 : (createGroupForRule db emailAccountId ruleName rule.id).2 =
        db.nextId := rfl
    rw [h2] at hstep
    have hany : db.groupItems.any
        (fun it => it.groupId == db.nextId &&
          it.type == GroupItemType.FROM && it.value == fromAddr) = false := by
      rw [List.any_eq_false]
      intro it hmem hk
      have hk3 : it.groupId = db.nextId ∧ it.type = GroupItemType.FROM ∧
          it.value = fromAddr := by
        simpa [and_assoc] using hk
      exact absurd hk3.1 (Nat.ne_of_lt (hwf2 it hmem))
    have hcond : ¬ ((createGroupForRule db emailAccountId ruleName
        rule.id).1.groupItems.any
        (fun it => it.groupId == db.nextId &&
          it.type == GroupItemType.FROM && it.value == fromAddr) = true) := by
      simp [h1items, hany]
    have happ : (upsertGroupItemNoop
        (createGroupForRule db emailAccountId ruleName rule.id).1 db.nextId
        GroupItemType.FROM fromAddr).groupItems =
        db.groupItems ++
          [⟨db.nextId, GroupItemType.FROM, fromAddr, false⟩] := by
      unfold upsertGroupItemNoop
      rw [if_neg hcond]
      rfl
    have hfind2 : findRule (upsertGroupItemNoop
        (createGroupForRule db emailAccountId ruleName rule.id).1 db.nextId
        GroupItemType.FROM fromAddr) ruleName emailAccountId =
        some { rule with groupId := some db.nextId } := by
      unfold findRule at hr ⊢
      rw [upsertGroupItemNoop_rules, h1rules]
      rw [find?_map_of_pred db.rules _ _ (fun r => by
        by_cases hid : (r.id == rule.id) = true <;> simp [hid])]
      rw [hr]
      simp
    have hcount : (upsertGroupItemNoop
        (createGroupForRule db emailAccountId ruleName rule.id).1 db.nextId
        GroupItemType.FROM fromAddr).groupItems.countP
        (fun it => it.groupId == db.nextId &&
          it.type == GroupItemType.FROM && it.value == fromAddr) = 1 := by
      have hz : db.groupItems.countP
          (fun it => it.groupId == db.nextId &&
            it.type == GroupItemType.FROM && it.value == fromAddr) = 0 :=
        List.countP_eq_zero.mpr (List.any_eq_false.mp hany)
      rw [happ, List.countP_append, hz]
      simp [List.countP_cons]
    have hex2 : (upsertGroupItemNoop
        (createGroupForRule db emailAccountId ruleName rule.id).1 db.nextId
        GroupItemType.FROM fromAddr).groupItems.any
        (fun it => it.groupId == db.nextId &&
          it.type == GroupItemType.FROM && it.value == fromAddr) = true :=
      List.any_eq_true.mpr (List.countP_pos_iff.mp (by rw [hcount]; omega))
    refine ⟨db.nextId, { rule with groupId := some db.nextId }, ?_, rfl,
      ?_, ?_, ?_⟩
    · rw [hstep]
      exact hfind2
    · rw [hstep]
      exact hcount
    · rw [hstep, upsertGroupItemNoop_groups, h1groups, List.countP_append]
      have hz2 : db.groups.countP (fun g2 => g2.id == db.nextId) = 0 :=
        List.countP_eq_zero.mpr (fun a ha hk =>
          absurd (by simpa using hk) (Nat.ne_of_lt (hwf1 a ha)))
      rw [hz2]
      simp [List.countP_cons]
    · rw [hstep]
      exact saveLearnedPattern_noop_of_exists _ emailAccountId fromAddr
        ruleName { rule with groupId := some db.nextId } db.nextId hfind2
        rfl hex2

theorem saveLearnedPattern_idempotent_unique_witness :
    DB.WF exDbRule ∧
    findRule exDbRule "Newsletters" "A" =
      some ⟨1, "Newsletters", "A", none, true, some "ai"⟩ ∧
    (∃ g rule2,
      findRule (saveLearnedPattern exDbRule "A" "news@example.com"
          "Newsletters") "Newsletters" "A" = some rule2 ∧
      rule2.groupId = some g ∧
      (saveLearnedPattern exDbRule "A" "news@example.com"
          "Newsletters").groupItems.countP
        (fun it => it.groupId == g && it.type == GroupItemType.FROM &&
          it.value == "news@example.com") = 1 ∧
      (saveLearnedPattern exDbRule "A" "news@example.com"
          "Newsletters").groups.countP (fun g2 => g2.id == g) ≤ 1 ∧
      saveLearnedPattern (saveLearnedPattern exDbRule "A" "news@example.com"
          "Newsletters") "A" "news@example.com" "Newsletters" =
        saveLearnedPattern exDbRule "A" "news@example.com" "Newsletters") :=
  ⟨by decide, by decide,
    saveLearnedPattern_idempotent_unique exDbRule "A" "news@example.com"
      "Newsletters" ⟨1, "Newsletters", "A", none, true, some "ai"⟩
      (by decide) (by decide)⟩

/-- C6: on an already-existing criterion (same container, kind, value) the
single-pattern path `saveLearnedPattern` is a complete no-op, preserving the
stored exclude flag, while the bulk path `saveLearnedPatterns` overwrites
the exclude flag with the newly asserted value, `false` when the assertion
leaves it unspecified. -/
theorem single_vs_bulk_exclude_policy (db : DB)
    (emailAccountId ruleName v : String) (rule : Rule) (g : Nat) (e : Bool)
    (it : GroupItem)
    (hr : findRule db ruleName emailAccountId = some rule)
    (hg : rule.groupId = some g)
    (hit : it ∈ db.groupItems)
    (hkey : it.groupId = g ∧ it.type = GroupItemType.FROM ∧ it.value = v) :
    saveLearnedPattern db emailAccountId v ruleName = db ∧
    (∃ it2 ∈ (saveLearnedPatterns db emailAccountId ruleName
        [⟨GroupItemType.FROM, v, some e⟩]).groupItems,
      it2.groupId = g ∧ it2.type = GroupItemType.FROM ∧ it2.value = v ∧
        it2.exclude = e) ∧
    (∀ it2 ∈ (saveLearnedPatterns db emailAccountId ruleName
        [⟨GroupItemType.FROM, v, some e⟩]).groupItems,
      it2.groupId = g → it2.type = GroupItemType.FROM → it2.value = v →
        it2.exclude = e) ∧
    (∀ it2 ∈ (saveLearnedPatterns db emailAccountId ruleName
        [⟨GroupItemType.FROM, v, none⟩]).groupItems,
      it2.groupId = g → it2.type = GroupItemType.FROM → it2.value = v →
        it2.exclude = false) := by
  have hany : db.groupItems.any
      (fun it2 => it2.groupId == g && it2.type == GroupItemType.FROM &&
        it2.value == v) = true :=
    List.any_eq_true.mpr ⟨it, hit, by simp [hkey.1, hkey.2.1, hkey.2.2]⟩
  have hbulk : ∀ ob : Option Bool,
      saveLearnedPatterns db emailAccountId ruleName
        [⟨GroupItemType.FROM, v, ob⟩] =
      upsertGroupItemOverwrite db g GroupItemType.FROM v (ob.getD false) := by
    intro ob
    simp [saveLearnedPatterns, hr, hg]
  refine ⟨?_, ?_, ?_, ?_⟩
  · have hsingle : saveLearnedPattern db emailAccountId v ruleName =
        upsertGroupItemNoop db g GroupItemType.FROM v := by
      simp [saveLearnedPattern, hr, hg]
    rw [hsingle]
    unfold upsertGroupItemNoop
    rw [if_pos hany]
  · rw [hbulk (some e)]
    exact (upsertGroupItemOverwrite_sets db g GroupItemType.FROM v e).1
  · rw [hbulk (some e)]
    exact (upsertGroupItemOverwrite_sets db g GroupItemType.FROM v e).2
  · rw [hbulk none]
    exact (upsertGroupItemOverwrite_sets db g GroupItemType.FROM v false).2

theorem single_vs_bulk_exclude_policy_witness :
    findRule exDbPattern "Newsletters" "A" =
      some ⟨1, "Newsletters", "A", some 5, true, some "ai"⟩ ∧
    (⟨5, GroupItemType.FROM, "news@example.com", true⟩ : GroupItem) ∈
      exDbPattern.groupItems ∧
    saveLearnedPattern exDbPattern "A" "news@example.com" "Newsletters" =
      exDbPattern ∧
    (∃ it2 ∈ (saveLearnedPatterns exDbPattern "A" "Newsletters"
        [⟨GroupItemType.FROM, "news@example.com", some false⟩]).groupItems,
      it2.groupId = 5 ∧ it2.type = GroupItemType.FROM ∧
        it2.value = "news@example.com" ∧ it2.exclude = false) :=
  ⟨by decide, by decide,
    (single_vs_bulk_exclude_policy exDbPattern "A" "Newsletters"
      "news@example.com" ⟨1, "Newsletters", "A", some 5, true, some "ai"⟩ 5
      false ⟨5, GroupItemType.FROM, "news@example.com", true⟩ (by decide)
      (by decide) (by decide) (by decide)).1,
    (single_vs_bulk_exclude_policy exDbPattern "A" "Newsletters"
      "news@example.com" ⟨1, "Newsletters", "A", some 5, true, some "ai"⟩ 5
      false ⟨5, GroupItemType.FROM, "news@example.com", true⟩ (by decide)
      (by decide) (by decide) (by decide)).2.1⟩

/-- C10: whenever `getThreadsFromSender` returns a non-empty list, every
message of every returned thread was sent from the normalized address under
analysis, so the threshold count only counts one-way messages. -/
theorem getThreadsFromSender_one_way (threads : List Thread) (sender : String)
    (hne : getThreadsFromSender threads sender ≠ [])
    (twm : ThreadWithMessages)
    (htwm : twm ∈ getThreadsFromSender threads sender)
    (m : Message) (hm : m ∈ twm.messages) :
    extractEmailAddress m.headersFrom = extractEmailAddress sender := by
  unfold getThreadsFromSender at htwm
  cases hcol : collectThreads (extractEmailAddress sender) threads with
  | none =>
    rw [hcol] at htwm
    cases htwm
  | some l =>
    rw [hcol] at htwm
    exact collectThreads_one_way hcol htwm hm

theorem getThreadsFromSender_one_way_witness :
    getThreadsFromSender [exThread] "news@example.com" ≠ [] ∧
    ⟨"t1", [exMsg, exMsg]⟩ ∈ getThreadsFromSender [exThread]
      "news@example.com" ∧
    exMsg ∈ [exMsg, exMsg] ∧
    extractEmailAddress exMsg.headersFrom =
      extractEmailAddress "news@example.com" :=
  ⟨by decide, by decide, by decide,
    getThreadsFromSender_one_way [exThread] "news@example.com" (by decide)
      ⟨"t1", [exMsg, exMsg]⟩ (by decide) exMsg (by decide)⟩

theorem run_ensureGroup_eq (db : DB) (emailAccountId ruleName : String) :
    DbOp.run db (DbOp.ensureGroup emailAccountId ruleName) =
      (match findRule db ruleName emailAccountId with
      | none => db
      | some rule =>
        match rule.groupId with
        | some _ => db
        | none => (createGroupForRule db emailAccountId ruleName rule.id).1) :=
  rfl

theorem run_upsertCriterion_eq (db : DB)
    (emailAccountId ruleName v : String) :
    DbOp.run db (DbOp.upsertCriterion emailAccountId ruleName v) =
      (match findRule db ruleName emailAccountId with
      | none => db
      | some rule =>
        match rule.groupId with
        | some gid => upsertGroupItemNoop db gid GroupItemType.FROM v
        | none => db) :=
  rfl

theorem run_upsertLedger_eq (db : DB) (email emailAccountId : String)
    (now : Nat) :
    DbOp.run db (DbOp.upsertLedger email emailAccountId now) =
      savePatternCheck db emailAccountId email now :=
  rfl

theorem upsertGroupItemNoop_newsletters (db : DB) (gid : Nat)
    (ty : GroupItemType) (v : String) :
    (upsertGroupItemNoop db gid ty v).newsletters = db.newsletters := by
  unfold upsertGroupItemNoop
  split <;> rfl

theorem ensureGroup_newsletters (db : DB) (emailAccountId ruleName : String) :
    (DbOp.run db (DbOp.ensureGroup emailAccountId ruleName)).newsletters =
      db.newsletters := by
  rw [run_ensureGroup_eq]
  split
  · rfl
  · split <;> rfl

theorem upsertCriterion_newsletters (db : DB)
    (emailAccountId ruleName v : String) :
    (DbOp.run db
        (DbOp.upsertCriterion emailAccountId ruleName v)).newsletters =
      db.newsletters := by
  rw [run_upsertCriterion_eq]
  split
  · rfl
  · split
    · exact upsertGroupItemNoop_newsletters _ _ _ _
    · rfl

theorem countNews_congr {db1 db2 : DB} (h : db1.newsletters = db2.newsletters)
    (email emailAccountId : String) :
    countNews db1 email emailAccountId = countNews db2 email emailAccountId := by
  unfold countNews
  rw [h]

theorem savePatternCheck_countNews (db : DB) (emailAccountId email : String)
    (now : Nat) (h : countNews db email emailAccountId ≤ 1) :
    countNews (savePatternCheck db emailAccountId email now) email
      emailAccountId = 1 := by
  unfold countNews at h ⊢
  unfold savePatternCheck
  by_cases hany : db.newsletters.any
      (fun n => n.email == email && n.emailAccountId == emailAccountId) = true
  · obtain ⟨n0, hmem, hk⟩ := List.any_eq_true.mp hany
    have hpos : 0 < db.newsletters.countP
        (fun n => n.email == email && n.emailAccountId == emailAccountId) :=
      List.countP_pos_iff.mpr ⟨n0, hmem, hk⟩
    rw [if_pos hany]
    show (db.newsletters.map _).countP _ = 1
    rw [List.countP_map]
    have hcg : db.newsletters.countP ((fun n : Newsletter =>
        n.email == email && n.emailAccountId == emailAccountId) ∘
        (fun n => if n.email == email && n.emailAccountId == emailAccountId
          then { n with patternAnalyzed := true, lastAnalyzedAt := some now }
          else n)) = db.newsletters.countP
        (fun n => n.email == email && n.emailAccountId == emailAccountId) := by
      apply List.countP_congr
      intro n hn
      by_cases hpn : (n.email == email && n.emailAccountId == emailAccountId)
          = true
      · simp only [Function.comp_apply, if_pos hpn]
      · simp only [Function.comp_apply, if_neg hpn]
    rw [hcg]
    omega
  · rw [if_neg hany]
    show (db.newsletters ++ _).countP _ = 1
    rw [List.countP_append]
    have hz : db.newsletters.countP
        (fun n => n.email == email && n.emailAccountId == emailAccountId)
        = 0 :=
      List.countP_eq_zero.mpr
        (fun a ha hk => hany (List.any_eq_true.mpr ⟨a, ha, hk⟩))
    rw [hz]
    simp [List.countP_cons]

theorem groupSlack_congr {db1 db2 : DB} (h : db1.rules = db2.rules)
    (ruleName emailAccountId : String) :
    groupSlack db1 ruleName emailAccountId =
      groupSlack db2 ruleName emailAccountId := by
  unfold groupSlack findRule
  rw [h]

theorem run_step_bound (db : DB) (emailAccountId ruleName fromAddr : String)
    (op : DbOp)
    (hop : op = DbOp.ensureGroup emailAccountId ruleName ∨
      op = DbOp.upsertCriterion emailAccountId ruleName fromAddr ∨
      ∃ t, op = DbOp.upsertLedger fromAddr emailAccountId t) :
    (DbOp.run db op).groups.length +
        groupSlack (DbOp.run db op) ruleName emailAccountId ≤
      db.groups.length + groupSlack db ruleName emailAccountId := by
  rcases hop with rfl | rfl | ⟨t, rfl⟩
  · rw [run_ensureGroup_eq]
    split
    · exact le_refl _
    · rename_i rule heq
      split
    
      · exact le_refl _
      · rename_i hgid
        have hlen : (createGroupForRule db emailAccountId ruleName
            rule.id).1.groups.length = db.groups.length + 1 := by
          rw [show (createGroupForRule db emailAccountId ruleName
            rule.id).1.groups = db.groups ++
              [⟨db.nextId, emailAccountId, ruleName, rule.id⟩] from rfl]
          simp
        have hfr : findRule (createGroupForRule db emailAccountId ruleName
            rule.id).1 ruleName emailAccountId =
            some { rule with groupId := some db.nextId } := by
          unfold findRule at heq ⊢
          rw [show (createGroupForRule db emailAccountId ruleName
            rule.id).1.rules = db.rules.map (fun r =>
              if r.id == rule.id then { r with groupId := some db.nextId }
              else r) from rfl]
          rw [find?_map_of_pred db.rules _ _ (fun r => by
            by_cases hid : (r.id == rule.id) = true <;> simp [hid])]
          rw [heq]
          simp
        have hslack0 : groupSlack (createGroupForRule db emailAccountId
            ruleName rule.id).1 ruleName emailAccountId = 0 := by
          unfold groupSlack
          rw [hfr]
        have hslack1 : groupSlack db ruleName emailAccountId = 1 := by
          unfold groupSlack
          simp only [heq, hgid]
        rw [hlen, hslack0, hslack1]
  · rw [run_upsertCriterion_eq]
    split
    · exact le_refl _
    · split
      · rename_i gid hgid
        have hg := upsertGroupItemNoop_groups db gid GroupItemType.FROM
          fromAddr
        have hr := upsertGroupItemNoop_rules db gid GroupItemType.FROM
          fromAddr
        rw [hg, groupSlack_congr hr]
      · exact le_refl _
  · rw [run_upsertLedger_eq]
    have hframe := savePatternCheck_frame db emailAccountId fromAddr t
    rw [hframe.2.1, groupSlack_congr hframe.2.2]

theorem runOps_groups_bound (ops : List DbOp) (db : DB)
    (emailAccountId ruleName fromAddr : String)
    (hops : ∀ op ∈ ops, op = DbOp.ensureGroup emailAccountId ruleName ∨
      op = DbOp.upsertCriterion emailAccountId ruleName fromAddr ∨
      ∃ t, op = DbOp.upsertLedger fromAddr emailAccountId t) :
    (runOps ops db).groups.length +
        groupSlack (runOps ops db) ruleName emailAccountId ≤
      db.groups.length + groupSlack db ruleName emailAccountId := by
  induction ops generalizing db with
  | nil => exact le_refl _
  | cons op rest ih =>
    have h1 := run_step_bound db emailAccountId ruleName fromAddr op
      (hops op (List.mem_cons_self op rest))
    have h2 := ih (DbOp.run db op)
      (fun o ho => hops o (List.mem_cons_of_mem _ ho))
    exact le_trans h2 h1

theorem runOps_countNews (ops : List DbOp) (db : DB)
    (emailAccountId ruleName fromAddr : String)
    (hops : ∀ op ∈ ops, op = DbOp.ensureGroup emailAccountId ruleName ∨
      op = DbOp.upsertCriterion emailAccountId ruleName fromAddr ∨
      ∃ t, op = DbOp.upsertLedger fromAddr emailAccountId t)
    (h : countNews db fromAddr emailAccountId ≤ 1) :
    countNews (runOps ops db) fromAddr emailAccountId ≤ 1 ∧
    (((∃ t, DbOp.upsertLedger fromAddr emailAccountId t ∈ ops) ∨
        countNews db fromAddr emailAccountId = 1) →
      countNews (runOps ops db) fromAddr emailAccountId = 1) := by
  induction ops generalizing db with
  | nil =>
    refine ⟨h, ?_⟩
    rintro (⟨t, ht⟩ | h1)
    · exact absurd ht (List.not_mem_nil _)
    · exact h1
  | cons op rest ih =>
    have hop := hops op (List.mem_cons_self op rest)
    have hstep : countNews (DbOp.run db op) fromAddr emailAccountId ≤ 1 ∧
        ((∃ t, op = DbOp.upsertLedger fromAddr emailAccountId t) →
          countNews (DbOp.run db op) fromAddr emailAccountId = 1) ∧
        (countNews db fromAddr emailAccountId = 1 →
          countNews (DbOp.run db op) fromAddr emailAccountId = 1) := by
      rcases hop with rfl | rfl | ⟨t, rfl⟩
      · have heq := countNews_congr
          (ensureGroup_newsletters db emailAccountId ruleName) fromAddr
          emailAccountId
        refine ⟨by rw [heq]; exact h, ?_, fun h1 => by rw [heq]; exact h1⟩
        intro hex
        obtain ⟨t, ht⟩ := hex
        exact DbOp.noConfusion ht
      · have heq := countNews_congr
          (upsertCriterion_newsletters db emailAccountId ruleName fromAddr)
          fromAddr emailAccountId
        refine ⟨by rw [heq]; exact h, ?_, fun h1 => by rw [heq]; exact h1⟩
        intro hex
        obtain ⟨t, ht⟩ := hex
        exact DbOp.noConfusion ht
      · have h1 := savePatternCheck_countNews db emailAccountId fromAddr t h
        rw [run_upsertLedger_eq]
        exact ⟨le_of_eq h1, fun _ => h1, fun _ => h1⟩
    have hrest := ih (DbOp.run db op)
      (fun o ho => hops o (List.mem_cons_of_mem _ ho)) hstep.1
    refine ⟨hrest.1, ?_⟩
    rintro (⟨t, ht⟩ | h1)
    · rcases List.mem_cons.mp ht with heq | hmem
      · exact hrest.2 (Or.inr (hstep.2.1 ⟨t, heq.symm⟩))
      · exact hrest.2 (Or.inl ⟨t, hmem⟩)
    · exact hrest.2 (Or.inr (hstep.2.2 h1))

/-- C9: for every interleaving of the atomic persistence operations of two
(or more) concurrent duplicate triggers for the same new (account, sender)
pair — container materialization, criterion upsert, ledger upsert — the
final store holds exactly one Sender Check row for that key and at most one
new Grouping Container in total. -/
theorem concurrent_triggers_once (ops : List DbOp) (db : DB)
    (emailAccountId ruleName fromAddr : String)
    (hops : ∀ op ∈ ops, op = DbOp.ensureGroup emailAccountId ruleName ∨
      op = DbOp.upsertCriterion emailAccountId ruleName fromAddr ∨
      ∃ t, op = DbOp.upsertLedger fromAddr emailAccountId t)
    (hled : ∃ t, DbOp.upsertLedger fromAddr emailAccountId t ∈ ops)
    (hcount : countNews db fromAddr emailAccountId ≤ 1) :
    countNews (runOps ops db) fromAddr emailAccountId = 1 ∧
    (runOps ops db).groups.length ≤ db.groups.length + 1 := by
  refine ⟨(runOps_countNews ops db emailAccountId ruleName fromAddr hops
    hcount).2 (Or.inl hled), ?_⟩
  have hb := runOps_groups_bound ops db emailAccountId ruleName fromAddr hops
  have hs1 : groupSlack db ruleName emailAccountId ≤ 1 := by
    unfold groupSlack
    split
    · omega
    · split <;> omega
  omega

theorem concurrent_triggers_once_witness :
    (∃ t, DbOp.upsertLedger "news@example.com" "A" t ∈ exOps) ∧
    countNews exDbRule "news@example.com" "A" ≤ 1 ∧
    countNews (runOps exOps exDbRule) "news@example.com" "A" = 1 ∧
    (runOps exOps exDbRule).groups.length ≤ exDbRule.groups.length + 1 :=
  ⟨⟨3, by decide⟩, by decide,
    concurrent_triggers_once exOps exDbRule "A" "Newsletters"
      "news@example.com"
      (by
        intro op hop
        simp only [exOps, List.mem_cons, List.not_mem_nil, or_false] at hop
        rcases hop with rfl | rfl | rfl | rfl | rfl | rfl
        · exact Or.inl rfl
        · exact Or.inr (Or.inl rfl)
        · exact Or.inl rfl
        · exact Or.inr (Or.inl rfl)
        · exact Or.inr (Or.inr ⟨3, rfl⟩)
        · exact Or.inr (Or.inr ⟨4, rfl⟩))
      ⟨3, by decide⟩ (by decide)⟩

end SenderPattern
